import Mathlib

/-
Verification development for the Linux CPU-counting module of the
num_cpus crate (src/linux.rs).  The Rust code is shallowly embedded:
file system and syscall outcomes are packaged in an `Env` record, pure
functions of the source become Lean functions over that record, and the
process-wide run-once cache becomes an explicit state-machine.
Machine integers (`usize`, `u32`) are modelled as `Nat` with the parse
functions enforcing the corresponding bounds.
-/

set_option maxRecDepth 10000

namespace NumCpus

/-- Split a list of characters on every occurrence of the separator,
mirroring Rust's `str::split(char)`: the empty string yields one empty
field, and adjacent separators yield empty fields. -/
def splitChar (sep : Char) : List Char → List (List Char)
  | [] => [[]]
  | c :: cs =>
    let r := splitChar sep cs
    if c = sep then [] :: r
    else
      match r with
      | h :: t => (c :: h) :: t
      | [] => [[c]]

/-- Drop whitespace from both ends of a character list, the model of
Rust's `str::trim` (restricted to ASCII whitespace, which is all that
occurs in the proc files the module reads). -/
def trimChars (cs : List Char) : List Char :=
  ((cs.dropWhile Char.isWhitespace).reverse.dropWhile Char.isWhitespace).reverse

/-- String-level wrapper around `splitChar`. -/
def rsSplit (sep : Char) (s : String) : List String :=
  (splitChar sep s.data).map String.mk

/-- String-level wrapper around `trimChars`. -/
def rsTrim (s : String) : String :=
  String.mk (trimChars s.data)

/-- Numeric value of a digit list (all characters already checked to be
digits). -/
def digitsVal (cs : List Char) : Nat :=
  cs.foldl (fun a c => a * 10 + (c.toNat - 48)) 0

/-- Rust's `str::parse` for an unsigned integer type with exclusive
upper bound `bound`: an optional leading plus sign, then one or more
decimal digits, rejecting overflow. -/
def parseUnsigned (bound : Nat) (s : String) : Option Nat :=
  let cs :=
    match s.data with
    | '+' :: t => t
    | cs => cs
  if cs.isEmpty then none
  else if cs.all Char.isDigit then
    let v := digitsVal cs
    if v < bound then some v else none
  else none

/-- `str::parse::<usize>` on a 64-bit platform. -/
def parseUsize (s : String) : Option Nat :=
  parseUnsigned (2 ^ 64) s

/-- `str::parse::<u32>`. -/
def parseU32 (s : String) : Option Nat :=
  parseUnsigned (2 ^ 32) s

/-- Modelled from the spec for comparison with the code (the spec reads
`cpu.cfs_quota_us` as a signed integer): parse of a signed 64-bit
decimal integer, optional leading plus or minus sign. -/
def parseSigned (s : String) : Option Int :=
  match s.data with
  | '-' :: t =>
    if t.isEmpty then none
    else if t.all Char.isDigit then
      let v := digitsVal t
      if v ≤ 2 ^ 63 then some (-(v : Int)) else none
    else none
  | _ =>
    match parseUnsigned (2 ^ 63) s with
    | some v => some (v : Int)
    | none => none

/-- A component of a Rust `std::path::Path`: the root directory, the
current-directory component, or a normal named component.  Empty and
interior "." segments are dropped by the component iterator; a leading
"." of a relative path is kept as the current-directory component. -/
inductive PComp where
  | root : PComp
  | curdir : PComp
  | normal : String → PComp
  deriving DecidableEq

/-- Components of a path string: split on the slash, drop empty and
current-directory segments, record a leading slash as the root
component, and keep a leading "." segment of a relative path as the
current-directory component (Rust keeps `CurDir` only at the start of a
rootless path). -/
def pathComps (s : String) : List PComp :=
  let parts := (splitChar '/' s.data).filter (fun p => decide (p ≠ [] ∧ p ≠ ['.']))
  let comps := parts.map (fun p => PComp.normal (String.mk p))
  match s.data with
  | '/' :: _ => PComp.root :: comps
  | '.' :: rest =>
    if rest.isEmpty || rest.head? == some '/' then PComp.curdir :: comps else comps
  | _ => comps

/-- Component-wise prefix test between paths, as used by Rust's
`Path::strip_prefix`. -/
def isCompPre : List PComp → List PComp → Bool
  | [], _ => true
  | _ :: _, [] => false
  | a :: as, b :: bs => decide (a = b) && isCompPre as bs

/-- Rust's `Path::strip_prefix` on component lists: succeed with the
remaining components when the first argument's components start with
the second argument's components. -/
def stripRootPre (self pre : List PComp) : Option (List PComp) :=
  if isCompPre pre self then some (self.drop pre.length) else none

/-- Rust's `PathBuf::push`: an absolute argument replaces the path,
anything else is appended. -/
def pathPush (base rel : List PComp) : List PComp :=
  match rel with
  | PComp.root :: _ => rel
  | _ => base ++ rel

/-- One matching line of `/proc/self/mountinfo`. -/
structure MountInfo where
  root : String
  mount_point : String
  deriving DecidableEq

/-- One matching line of `/proc/self/cgroup`. -/
structure Subsys where
  base : String
  deriving DecidableEq

/-- The resolved host-visible cgroup directory. -/
structure Cgroup where
  base : List PComp
  deriving DecidableEq

/-- `MountInfo::parse_line`: fields are space-separated; field 3 is the
mount root, field 4 the mount point, field 8 must be the literal
`cgroup`, and field 10 (the super options) must contain `cpu` among its
comma-separated entries. -/
def MountInfo.parse_line (line : String) : Option MountInfo :=
  let fields := rsSplit ' ' line
  match fields[3]?, fields[4]? with
  | some mnt_root, some mnt_point =>
    if fields[8]? = some "cgroup" then
      match fields[10]? with
      | some super_opts =>
        if (rsSplit ',' super_opts).any (fun opt => opt == "cpu") then
          some ⟨mnt_root, mnt_point⟩
        else none
      | none => none
    else none
  | _, _ => none

/-- `MountInfo::load_cpu`: first line of the mount table that parses. -/
def MountInfo.load_cpu (lines : List String) : Option MountInfo :=
  List.findSome? MountInfo.parse_line lines

/-- `Subsys::parse_line`: fields are colon-separated; field 1 is the
comma-separated controller list, which must contain `cpu`; field 2 is
the controller's assigned path. -/
def Subsys.parse_line (line : String) : Option Subsys :=
  let fields := rsSplit ':' line
  match fields[1]? with
  | none => none
  | some sub_systems =>
    if (rsSplit ',' sub_systems).any (fun sub => sub == "cpu") then
      (fields[2]?).map (fun path => ⟨path⟩)
    else none

/-- `Subsys::load_cpu`: first line of the cgroup membership file that
parses. -/
def Subsys.load_cpu (lines : List String) : Option Subsys :=
  List.findSome? Subsys.parse_line lines

/-- `Cgroup::translate`: strip the mount root from the subsystem path
(failing when it is not a component-wise path prefix) and join the
remainder onto the mount point. -/
def Cgroup.translate (mntinfo : MountInfo) (subsys : Subsys) : Option Cgroup :=
  match stripRootPre (pathComps subsys.base) (pathComps mntinfo.root) with
  | none => none
  | some rel_from_root => some ⟨pathPush (pathComps mntinfo.mount_point) rel_from_root⟩

/-- The outcome of every file read the module performs, addressed by
path components; `none` models an open or read failure. -/
def FileSys := List PComp → Option String

/-- `Cgroup::param`: read the named file inside the cgroup directory,
trim it and parse it as a `usize` (both quota files are read through
this one unsigned parse). -/
def Cgroup.param (files : FileSys) (cg : Cgroup) (p : String) : Option Nat :=
  match files (cg.base ++ [PComp.normal p]) with
  | none => none
  | some buf => parseUsize (rsTrim buf)

/-- `Cgroup::quota_us`. -/
def Cgroup.quota_us (files : FileSys) (cg : Cgroup) : Option Nat :=
  cg.param files "cpu.cfs_quota_us"

/-- `Cgroup::period_us`. -/
def Cgroup.period_us (files : FileSys) (cg : Cgroup) : Option Nat :=
  cg.param files "cpu.cfs_period_us"

/-- Round-half-to-even of the quotient of two naturals: the integer
nearest to `N / D`, ties going to the even integer.  This is the IEEE
754 default rounding applied to an exact nonnegative value placed on an
integer grid. -/
def natRhe (N D : Nat) : Nat :=
  if 2 * (N % D) < D then N / D
  else if D < 2 * (N % D) then N / D + 1
  else if (N / D) % 2 = 0 then N / D else N / D + 1

/-- Fuel-driven floor of the base-2 logarithm (structural recursion so
that concrete instances reduce in the kernel). -/
def log2fuel : Nat → Nat → Nat
  | 0, _ => 0
  | fuel + 1, n => if 2 ≤ n then log2fuel fuel (n / 2) + 1 else 0

/-- Floor of the base-2 logarithm, exact for every `n < 2 ^ 128`. -/
def floorLog2 (n : Nat) : Nat := log2fuel 128 n

/-- The value of `n as f64` for a `u64` value `n`: exact below `2 ^ 53`,
otherwise rounded half-to-even onto the grid of the value's binade
(quantum `2 ^ (e - 52)` where `2 ^ e ≤ n < 2 ^ (e + 1)`).  The result
of an IEEE double conversion of a `u64` is always a natural number. -/
def f64OfNat (n : Nat) : Nat :=
  if n = 0 then 0
  else
    let e := floorLog2 n
    if e ≤ 52 then n
    else natRhe n (2 ^ (e - 52)) * 2 ^ (e - 52)

/-- The biased binade exponent `e + 64` of the quotient `a / b` of two
positive naturals, so that `2 ^ (s - 64) ≤ a / b < 2 ^ (s - 63)`
(`s ≥ 0` whenever `a ≥ 1` and `b ≤ 2 ^ 64`). -/
def f64Binade (a b : Nat) : Nat :=
  if b * 2 ^ floorLog2 a ≤ a * 2 ^ floorLog2 b then
    floorLog2 a + 64 - floorLog2 b
  else floorLog2 a + 64 - floorLog2 b - 1

/-- The value of `(x / y).ceil()` where `x`, `y` are the nonnegative
finite doubles with (natural) values `a` and `b > 0`: the correctly
rounded (half-to-even) quotient on the quantum `2 ^ (e - 52)` of its
binade, then the exact ceiling (`f64::ceil` is exact, and the rounded
quotient is `m * 2 ^ (s - 116)` with `s` the biased exponent).  The
ceiling of a nonnegative double is a natural number. -/
def f64DivCeil (a b : Nat) : Nat :=
  if a = 0 then 0
  else
    let s := f64Binade a b
    if 116 ≤ s then natRhe a (b * 2 ^ (s - 116)) * 2 ^ (s - 116)
    else (natRhe (a * 2 ^ (116 - s)) b + 2 ^ (116 - s) - 1) / 2 ^ (116 - s)

/-- Rust's `as usize` cast of a nonnegative integral double: saturate
at `usize::MAX`. -/
def usizeSat (v : Nat) : Nat := min v (2 ^ 64 - 1)

/-- `Cgroup::cpu_quota`: read quota and period, guard against a zero
period, and return `(quota_us as f64 / period_us as f64).ceil() as
usize` — both `u64`-to-double conversions, the correctly rounded
division, the exact ceiling and the saturating cast modelled at the
level of the doubles' values. -/
def Cgroup.cpu_quota (files : FileSys) (cg : Cgroup) : Option Nat :=
  match cg.quota_us files with
  | none => none
  | some quota_us =>
    match cg.period_us files with
    | none => none
    | some period_us =>
      if period_us = 0 then none
      else some (usizeSat (f64DivCeil (f64OfNat quota_us) (f64OfNat period_us)))

/-- All inputs the Linux module consumes: the affinity syscall outcome
(`none` when `sched_getaffinity` fails, otherwise the mask bits), the
`sysconf` online-CPU count, and the contents of the proc files (`none`
models an unopenable file). -/
structure Env where
  affinity : Option (List Bool)
  nprocs_onln : Int
  cpuinfo : Option (List String)
  cgroup_lines : Option (List String)
  mountinfo_lines : Option (List String)
  files : FileSys

/-- `libc::CPU_SETSIZE`. -/
def CPU_SETSIZE : Nat := 1024

/-- The bit-counting loop of `logical_cpus`: the number of indices below
`CPU_SETSIZE` whose mask bit is set. -/
def countSetBits (mask : List Bool) : Nat :=
  ((List.range CPU_SETSIZE).filter (fun i => mask.getD i false)).length

/-- `logical_cpus`: count the affinity mask's set bits when the syscall
succeeds; otherwise fall back to the online-CPU count, clamped to 1. -/
def logical_cpus (env : Env) : Nat :=
  match env.affinity with
  | some mask => countSetBits mask
  | none =>
    if env.nprocs_onln < 1 then 1 else env.nprocs_onln.toNat

/-- `load_cgroups`: the three-stage quota pipeline, short-circuiting to
`none` at every failure. -/
def load_cgroups (env : Env) : Option Nat :=
  match env.cgroup_lines with
  | none => none
  | some clines =>
    match Subsys.load_cpu clines with
    | none => none
    | some subsys =>
      match env.mountinfo_lines with
      | none => none
      | some mlines =>
        match MountInfo.load_cpu mlines with
        | none => none
        | some mntinfo =>
          match Cgroup.translate mntinfo subsys with
          | none => none
          | some cgroup => cgroup.cpu_quota env.files

/-- `init_cgroups`: the value stored into the `CGROUPS_CPUS` atomic by
the one-time initializer (0 is the untouched sentinel, left in place
when the quota is absent or zero). -/
def init_cgroups (env : Env) : Nat :=
  match load_cgroups env with
  | some quota => if quota = 0 then 0 else min quota (logical_cpus env)
  | none => 0

/-- `cgroups_num_cpus` in the steady state reached from `env`: the
cached value when positive, otherwise `none`. -/
def cgroups_num_cpus (env : Env) : Option Nat :=
  let cpus := init_cgroups env
  if cpus > 0 then some cpus else none

/-- `get_num_cpus`: the cached cgroup figure when available, otherwise
the affinity prober's result. -/
def get_num_cpus (env : Env) : Nat :=
  match cgroups_num_cpus env with
  | some n => n
  | none => logical_cpus env

/-- Classification of one `/proc/cpuinfo` line by the scanning loop of
`get_num_physical_cpus`: split on the colon, trim the first two fields;
a `physical id` key with a `u32` value, a `cpu cores` key with a
`usize` value, a recognized key whose value fails to parse (which makes
the loop break), or any other line (skipped). -/
inductive TLine where
  | phys : Nat → TLine
  | cores : Nat → TLine
  | other : TLine
  | bad : TLine
  deriving DecidableEq

/-- Classify one line exactly as the loop body of
`get_num_physical_cpus` does before updating its state. -/
def classify (line : String) : TLine :=
  match rsSplit ':' line with
  | k :: v :: _ =>
    let key := rsTrim k
    let value := rsTrim v
    if key = "physical id" then
      match parseU32 value with
      | some n => TLine.phys n
      | none => TLine.bad
    else if key = "cpu cores" then
      match parseUsize value with
      | some n => TLine.cores n
      | none => TLine.bad
    else TLine.other
  | _ => TLine.other

/-- The mutable state of the scanning loop of `get_num_physical_cpus`:
the `HashMap`, modelled as an association list, and the `physid`,
`cores` and `chgcount` locals. -/
structure ScanSt where
  map : List (Nat × Nat)
  physid : Nat
  cores : Nat
  chgcount : Nat
  deriving DecidableEq

/-- `HashMap::insert`: replace the value of an existing key, otherwise
add the pair. -/
def mapInsert (m : List (Nat × Nat)) (k v : Nat) : List (Nat × Nat) :=
  if m.any (fun kv => kv.1 == k) then
    m.map (fun kv => if kv.1 = k then (k, v) else kv)
  else m ++ [(k, v)]

/-- The `if chgcount == 2` block at the end of the loop body: record
`physid -> cores` and reset the change counter. -/
def flushIfTwo (st : ScanSt) : ScanSt :=
  if st.chgcount = 2 then
    { st with map := mapInsert st.map st.physid st.cores, chgcount := 0 }
  else st

/-- One iteration of the scanning loop: `none` models the `break` taken
when a recognized key's value fails to parse. -/
def procLine (st : ScanSt) (line : String) : Option ScanSt :=
  match classify line with
  | TLine.bad => none
  | TLine.other => some st
  | TLine.phys n => some (flushIfTwo { st with physid := n, chgcount := st.chgcount + 1 })
  | TLine.cores n => some (flushIfTwo { st with cores := n, chgcount := st.chgcount + 1 })

/-- The whole scanning loop: fold the iterations, stopping at the first
`break` and returning the state reached so far. -/
def scanLines : ScanSt → List String → ScanSt
  | st, [] => st
  | st, l :: ls =>
    match procLine st l with
    | none => st
    | some st' => scanLines st' ls

/-- The `fold` that follows the loop: the sum of the recorded core
counts over all distinct physical ids. -/
def sumCores (m : List (Nat × Nat)) : Nat :=
  m.foldl (fun acc kv => acc + kv.2) 0

/-- The core count `get_num_physical_cpus` computes from the topology
file's lines before applying its zero fallback. -/
def physCountFromLines (lines : List String) : Nat :=
  sumCores (scanLines ⟨[], 0, 0, 0⟩ lines).map

/-- `get_num_physical_cpus`: delegate to `get_num_cpus` when the
topology file cannot be opened or the summed core count is zero,
otherwise return the sum. -/
def get_num_physical_cpus (env : Env) : Nat :=
  match env.cpuinfo with
  | none => get_num_cpus env
  | some lines =>
    let count := physCountFromLines lines
    if count = 0 then get_num_cpus env else count

/-- Modelled from the spec for comparison with the code: the pending
pair of the claimed scanning discipline, which tracks the most recently
seen `physical id` and `cpu cores` values separately and flushes only
when both are present. -/
structure SpecScanSt where
  map : List (Nat × Nat)
  pend_phys : Option Nat
  pend_cores : Option Nat
  deriving DecidableEq

/-- Modelled from the spec: record `physical_id -> cores` and reset the
pending pair as soon as both halves have been seen. -/
def specFlush (st : SpecScanSt) : SpecScanSt :=
  match st.pend_phys, st.pend_cores with
  | some p, some c => ⟨mapInsert st.map p c, none, none⟩
  | _, _ => st

/-- Modelled from the spec: one line of the claimed scanning
discipline (line recognition and the break behaviour are shared with
the code via `classify`). -/
def specProcLine (st : SpecScanSt) (line : String) : Option SpecScanSt :=
  match classify line with
  | TLine.bad => none
  | TLine.other => some st
  | TLine.phys n => some (specFlush { st with pend_phys := some n })
  | TLine.cores n => some (specFlush { st with pend_cores := some n })

/-- Modelled from the spec: the claimed scanning loop. -/
def specScanLines : SpecScanSt → List String → SpecScanSt
  | st, [] => st
  | st, l :: ls =>
    match specProcLine st l with
    | none => st
    | some st' => specScanLines st' ls

/-- Modelled from the spec: the core count obtained by the claimed
scanning discipline. -/
def specPhysCountFromLines (lines : List String) : Nat :=
  sumCores (specScanLines ⟨[], none, none⟩ lines).map

/-- One step of the well-pairedness check: the pending slot records
which half of a pair has been seen (`true` = physical id); `none` as a
result flags a violation (a parse failure or two occurrences of the
same half in one window). -/
def pairStep : Option Bool → TLine → Option (Option Bool)
  | _, TLine.bad => none
  | pending, TLine.other => some pending
  | none, TLine.phys _ => some (some true)
  | some true, TLine.phys _ => none
  | some false, TLine.phys _ => some none
  | none, TLine.cores _ => some (some false)
  | some false, TLine.cores _ => none
  | some true, TLine.cores _ => some none

/-- A topology file is well-paired when its recognized lines all parse
and alternate in windows of one `physical id` and one `cpu cores` line
(either order), with at most a trailing half-window left open. -/
def pairedOk : Option Bool → List String → Bool
  | _, [] => true
  | pending, l :: ls =>
    match pairStep pending (classify l) with
    | none => false
    | some p' => pairedOk p' ls

/-- The process-wide cache: whether `Once` has run, and the value of the
`CGROUPS_CPUS` atomic (0 = sentinel). -/
structure CacheState where
  once_done : Bool
  cgroups_cpus : Nat
  deriving DecidableEq

/-- The cache before any call. -/
def initState : CacheState := ⟨false, 0⟩

/-- The `ONCE.call_once(init_cgroups)` step: the first call runs the
initializer in the current environment, all later calls leave the
state untouched. -/
def callStep (env : Env) (s : CacheState) : CacheState :=
  if s.once_done then s else ⟨true, init_cgroups env⟩

/-- One call of `get_num_cpus` against the mutable cache: run the
once-guarded initializer, then return the cached value when positive
and the freshly probed logical count otherwise. -/
def call_get_num_cpus (env : Env) (s : CacheState) : Nat × CacheState :=
  let s' := callStep env s
  (if s'.cgroups_cpus > 0 then s'.cgroups_cpus else logical_cpus env, s')

/-- Simulation invariant between the code's scanner state and the
claimed pending-pair state, indexed by which half of the current
window has been seen (`true` = the physical id). -/
def InvPair : Option Bool → ScanSt → SpecScanSt → Prop
  | none, st, sp =>
      st.chgcount = 0 ∧ sp.pend_phys = none ∧ sp.pend_cores = none ∧ st.map = sp.map
  | some true, st, sp =>
      st.chgcount = 1 ∧ sp.pend_phys = some st.physid ∧ sp.pend_cores = none ∧ st.map = sp.map
  | some false, st, sp =>
      st.chgcount = 1 ∧ sp.pend_phys = none ∧ sp.pend_cores = some st.cores ∧ st.map = sp.map

/-- The cgroup directory the concrete environments below resolve to. -/
def cgW : Cgroup := ⟨pathComps "/sys/fs/cgroup/cpu"⟩

/-- Quota files holding 100000 and 30000 microseconds. -/
def filesW : FileSys := fun p =>
  if p = cgW.base ++ [PComp.normal "cpu.cfs_quota_us"] then some "100000\n"
  else if p = cgW.base ++ [PComp.normal "cpu.cfs_period_us"] then some "30000\n"
  else none

/-- Quota files holding 200000 and 30000 microseconds. -/
def filesW2 : FileSys := fun p =>
  if p = cgW.base ++ [PComp.normal "cpu.cfs_quota_us"] then some "200000\n"
  else if p = cgW.base ++ [PComp.normal "cpu.cfs_period_us"] then some "30000\n"
  else none

/-- Quota files holding 2^53 + 1 microseconds of quota and a period of
one microsecond: both parse as `usize`, but the quota is not
representable as a double. -/
def filesBig : FileSys := fun p =>
  if p = cgW.base ++ [PComp.normal "cpu.cfs_quota_us"] then some "9007199254740993\n"
  else if p = cgW.base ++ [PComp.normal "cpu.cfs_period_us"] then some "1\n"
  else none

/-- Quota files with a zero period. -/
def filesC6 : FileSys := fun p =>
  if p = cgW.base ++ [PComp.normal "cpu.cfs_quota_us"] then some "100000\n"
  else if p = cgW.base ++ [PComp.normal "cpu.cfs_period_us"] then some "0\n"
  else none

/-- Quota files with the unlimited marker -1 as the quota. -/
def filesC7 : FileSys := fun p =>
  if p = cgW.base ++ [PComp.normal "cpu.cfs_quota_us"] then some "-1\n"
  else if p = cgW.base ++ [PComp.normal "cpu.cfs_period_us"] then some "100000\n"
  else none

/-- An affinity mask with eight permitted CPUs. -/
def maskW : List Bool := [true, true, true, true, true, true, true, true]

/-- The cgroup membership and mount table lines shared by the concrete
environments. -/
def clinesW : List String := ["11:cpu,cpuacct:/docker/01abcd"]

/-- A mount table whose cgroup line mounts the docker cgroup root at
the usual place. -/
def mlinesW : List String :=
  ["25 24 0:22 /docker/01abcd /sys/fs/cgroup/cpu rw shared:9 - cgroup cgroup rw,cpu"]

/-- Environment with eight permitted CPUs and a 100000/30000 quota. -/
def envW : Env := ⟨some maskW, 8, none, some clinesW, some mlinesW, filesW⟩

/-- The same environment after the quota file changed to 200000. -/
def envW2 : Env := ⟨some maskW, 8, none, some clinesW, some mlinesW, filesW2⟩

/-- The same environment with -1 in the quota file. -/
def envC7 : Env := ⟨some maskW, 8, none, some clinesW, some mlinesW, filesC7⟩

/-- Environment whose affinity read succeeds with an empty mask. -/
def envC5 : Env := ⟨some [], 0, none, none, none, fun _ => none⟩

/-- Environment where the affinity read fails and the online-CPU count
is unavailable. -/
def envC5W : Env := ⟨none, -1, none, none, none, fun _ => none⟩

/-- Environment whose topology file stops parsing at its third line. -/
def envC10 : Env :=
  ⟨some [true, true], 2,
   some ["physical id : 0", "cpu cores : 4", "physical id : x", "cpu cores : 8"],
   none, none, fun _ => none⟩

theorem procLine_bad (st : ScanSt) (l : String) (h : classify l = TLine.bad) :
    procLine st l = none := by
  unfold procLine
  rw [h]

theorem scanLines_stop (bad : String) (hbad : classify bad = TLine.bad) :
    ∀ (pre : List String) (st : ScanSt) (rest : List String),
      scanLines st (pre ++ bad :: rest) = scanLines st pre := by
  intro pre
  induction pre with
  | nil =>
    intro st rest
    simp [scanLines, procLine_bad st bad hbad]
  | cons p ps ih =>
    intro st rest
    simp only [List.cons_append, scanLines]
    cases hp : procLine st p with
    | none => simp only []
    | some st' => exact ih st' rest

theorem scan_agrees :
    ∀ (lines : List String) (pending : Option Bool) (st : ScanSt) (sp : SpecScanSt),
      pairedOk pending lines = true → InvPair pending st sp →
      (scanLines st lines).map = (specScanLines sp lines).map := by
  intro lines
  induction lines with
  | nil =>
    intro pending st sp _ hinv
    rcases pending with _ | b
    · exact hinv.2.2.2
    · cases b
      · exact hinv.2.2.2
      · exact hinv.2.2.2
  | cons l ls ih =>
    intro pending st sp hok hinv
    cases hcl : classify l with
    | bad =>
      exfalso
      rcases pending with _ | b
      · simp [pairedOk, pairStep, hcl] at hok
      · cases b <;> simp [pairedOk, pairStep, hcl] at hok
    | other =>
      have hc : scanLines st (l :: ls) = scanLines st ls := by
        simp [scanLines, procLine, hcl]
      have hs : specScanLines sp (l :: ls) = specScanLines sp ls := by
        simp [specScanLines, specProcLine, hcl]
      have hok' : pairedOk pending ls = true := by
        rcases pending with _ | b
        · simpa [pairedOk, pairStep, hcl] using hok
        · cases b <;> simpa [pairedOk, pairStep, hcl] using hok
      rw [hc, hs]
      exact ih pending st sp hok' hinv
    | phys n =>
      rcases pending with _ | b
      · obtain ⟨h0, hpp, hpc, hmap⟩ := hinv
        have hok' : pairedOk (some true) ls = true := by
          simpa [pairedOk, pairStep, hcl] using hok
        have hplc : procLine st l = some ⟨st.map, n, st.cores, 1⟩ := by
          simp [procLine, hcl, flushIfTwo, h0]
        have hpls : specProcLine sp l = some ⟨sp.map, some n, none⟩ := by
          simp [specProcLine, hcl, specFlush, hpc]
        rw [show scanLines st (l :: ls) = scanLines ⟨st.map, n, st.cores, 1⟩ ls by
              simp [scanLines, hplc],
            show specScanLines sp (l :: ls) = specScanLines ⟨sp.map, some n, none⟩ ls by
              simp [specScanLines, hpls]]
        exact ih (some true) _ _ hok' ⟨rfl, rfl, rfl, hmap⟩
      · cases b
        · obtain ⟨h1, hpp, hpc, hmap⟩ := hinv
          have hok' : pairedOk (none : Option Bool) ls = true := by
            simpa [pairedOk, pairStep, hcl] using hok
          have hplc : procLine st l = some ⟨mapInsert st.map n st.cores, n, st.cores, 0⟩ := by
            simp [procLine, hcl, flushIfTwo, h1]
          have hpls : specProcLine sp l = some ⟨mapInsert sp.map n st.cores, none, none⟩ := by
            simp [specProcLine, hcl, specFlush, hpc]
          rw [show scanLines st (l :: ls) =
                scanLines ⟨mapInsert st.map n st.cores, n, st.cores, 0⟩ ls by
                simp [scanLines, hplc],
              show specScanLines sp (l :: ls) =
                specScanLines ⟨mapInsert sp.map n st.cores, none, none⟩ ls by
                simp [specScanLines, hpls]]
          refine ih none _ _ hok' ⟨rfl, rfl, rfl, ?_⟩
          rw [hmap]
        · exfalso
          simp [pairedOk, pairStep, hcl] at hok
    | cores n =>
      rcases pending with _ | b
      · obtain ⟨h0, hpp, hpc, hmap⟩ := hinv
        have hok' : pairedOk (some false) ls = true := by
          simpa [pairedOk, pairStep, hcl] using hok
        have hplc : procLine st l = some ⟨st.map, st.physid, n, 1⟩ := by
          simp [procLine, hcl, flushIfTwo, h0]
        have hpls : specProcLine sp l = some ⟨sp.map, none, some n⟩ := by
          simp [specProcLine, hcl, specFlush, hpp]
        rw [show scanLines st (l :: ls) = scanLines ⟨st.map, st.physid, n, 1⟩ ls by
              simp [scanLines, hplc],
            show specScanLines sp (l :: ls) = specScanLines ⟨sp.map, none, some n⟩ ls by
              simp [specScanLines, hpls]]
        exact ih (some false) _ _ hok' ⟨rfl, rfl, rfl, hmap⟩
      · cases b
        · exfalso
          simp [pairedOk, pairStep, hcl] at hok
        · obtain ⟨h1, hpp, hpc, hmap⟩ := hinv
          have hok' : pairedOk (none : Option Bool) ls = true := by
            simpa [pairedOk, pairStep, hcl] using hok
          have hplc : procLine st l = some ⟨mapInsert st.map st.physid n, st.physid, n, 0⟩ := by
            simp [procLine, hcl, flushIfTwo, h1]
          have hpls : specProcLine sp l = some ⟨mapInsert sp.map st.physid n, none, none⟩ := by
            simp [specProcLine, hcl, specFlush, hpp]
          rw [show scanLines st (l :: ls) =
                scanLines ⟨mapInsert st.map st.physid n, st.physid, n, 0⟩ ls by
                simp [scanLines, hplc],
              show specScanLines sp (l :: ls) =
                specScanLines ⟨mapInsert sp.map st.physid n, none, none⟩ ls by
                simp [specScanLines, hpls]]
          refine ih none _ _ hok' ⟨rfl, rfl, rfl, ?_⟩
          rw [hmap]

theorem log2fuel_spec : ∀ (fuel n : Nat), 1 ≤ n → n < 2 ^ fuel →
    2 ^ log2fuel fuel n ≤ n ∧ n < 2 ^ (log2fuel fuel n + 1) := by
  intro fuel
  induction fuel with
  | zero =>
    intro n h1 h2
    simp at h2
    omega
  | succ f ih =>
    intro n h1 h2
    rw [log2fuel]
    by_cases h : 2 ≤ n
    · have hrec := ih (n / 2) (by omega) (by
        have hp : (2 : Nat) ^ (f + 1) = 2 * 2 ^ f := by ring
        omega)
      simp only [if_pos h]
      obtain ⟨hl, hr⟩ := hrec
      constructor
      · have hp : (2 : Nat) ^ (log2fuel f (n / 2) + 1) = 2 * 2 ^ log2fuel f (n / 2) := by
          ring
        omega
      · have hp : (2 : Nat) ^ (log2fuel f (n / 2) + 1 + 1) =
            2 * 2 ^ (log2fuel f (n / 2) + 1) := by ring
        omega
    · simp only [if_neg h]
      have hp : (2 : Nat) ^ (0 + 1) = 2 := by norm_num
      constructor
      · simpa using h1
      · omega

theorem floorLog2_spec (n : Nat) (h1 : 1 ≤ n) (h2 : n < 2 ^ 128) :
    2 ^ floorLog2 n ≤ n ∧ n < 2 ^ (floorLog2 n + 1) :=
  log2fuel_spec 128 n h1 h2

theorem natRhe_bounds (N D : Nat) (hD : 0 < D) :
    2 * N ≤ 2 * natRhe N D * D + D ∧ 2 * natRhe N D * D ≤ 2 * N + D := by
  have h1 : N / D * D + N % D = N := Nat.div_add_mod' N D
  have h2 : N % D < D := Nat.mod_lt N hD
  unfold natRhe
  generalize hq : N / D = q at *
  generalize hr : N % D = r at *
  subst h1
  split_ifs with ha hb hc <;> constructor <;> linarith

theorem rhe_ceil_core (a b T m n : Nat) (hb : 0 < b) (hT : 0 < T)
    (hm1 : 2 * (a * T) ≤ 2 * m * b + b) (hm2 : 2 * m * b ≤ 2 * (a * T) + b)
    (hn1 : a ≤ n * b) (hn2 : n * b < a + b)
    (hsmall : b * 2 ^ 52 ≤ a * T) (ha : a < 2 ^ 53) :
    (m + T - 1) / T = n := by
  have hub : m ≤ n * T := by
    have h1 : a * T ≤ n * b * T := Nat.mul_le_mul_right T hn1
    have h2 : 2 * m * b ≤ (2 * (n * T) + 1) * b := by nlinarith
    have h3 : 2 * m ≤ 2 * (n * T) + 1 :=
      Nat.le_of_mul_le_mul_right (by nlinarith) hb
    omega
  have hlb : n * T < m + T := by
    by_contra hcon
    push_neg at hcon
    have h4 : m * b + T * b ≤ n * T * b := by nlinarith [hcon]
    have h5 : 2 * (n * b * T) + 2 * T ≤ 2 * (a * T) + 2 * (b * T) := by
      nlinarith [hn2]
    have h6 : 2 * T ≤ b := by nlinarith [hm1, h4, h5]
    have h7 : 2 ^ 53 * T ≤ a * T := by
      calc 2 ^ 53 * T = 2 * T * 2 ^ 52 := by ring
        _ ≤ b * 2 ^ 52 := Nat.mul_le_mul_right _ h6
        _ ≤ a * T := hsmall
    have h8 : 2 ^ 53 ≤ a := Nat.le_of_mul_le_mul_right h7 hT
    omega
  have e1 : (n + 1) * T = n * T + T := by ring
  exact Nat.div_eq_of_lt_le (by omega) (by omega)

theorem rhe_ceil_combined (a b k : Nat) (hb : 0 < b) (ha1 : 1 ≤ a) (ha : a < 2 ^ 53)
    (hsmall : b * 2 ^ 52 ≤ a * 2 ^ k) :
    (natRhe (a * 2 ^ k) b + 2 ^ k - 1) / 2 ^ k = (a + b - 1) / b := by
  have hT : 0 < 2 ^ k := pow_pos (by norm_num) k
  obtain ⟨h1, h2⟩ := natRhe_bounds (a * 2 ^ k) b hb
  have hnub : a + b - 1 < ((a + b - 1) / b + 1) * b :=
    (Nat.div_lt_iff_lt_mul hb).1 (Nat.lt_succ_self _)
  have hnlb : (a + b - 1) / b * b ≤ a + b - 1 := Nat.div_mul_le_self _ _
  have e1 : ((a + b - 1) / b + 1) * b = (a + b - 1) / b * b + b := by ring
  have hn1 : a ≤ (a + b - 1) / b * b := by omega
  have hn2 : (a + b - 1) / b * b < a + b := by omega
  exact rhe_ceil_core a b (2 ^ k) (natRhe (a * 2 ^ k) b) ((a + b - 1) / b)
    hb hT h1 h2 hn1 hn2 hsmall ha

theorem f64Binade_bounds (a b : Nat) (ha1 : 1 ≤ a) (hb1 : 1 ≤ b)
    (ha : a < 2 ^ 53) (hb : b < 2 ^ 53) :
    f64Binade a b ≤ 116 ∧ b * 2 ^ 52 ≤ a * 2 ^ (116 - f64Binade a b) := by
  obtain ⟨ha2, ha3⟩ := floorLog2_spec a ha1 (by
    calc a < 2 ^ 53 := ha
      _ < 2 ^ 128 := by norm_num)
  obtain ⟨hb2, hb3⟩ := floorLog2_spec b hb1 (by
    calc b < 2 ^ 53 := hb
      _ < 2 ^ 128 := by norm_num)
  have hea : floorLog2 a ≤ 52 := by
    by_contra hcon
    push_neg at hcon
    have : (2 : Nat) ^ 53 ≤ 2 ^ floorLog2 a := Nat.pow_le_pow_right (by norm_num) hcon
    omega
  have heb : floorLog2 b ≤ 52 := by
    by_contra hcon
    push_neg at hcon
    have : (2 : Nat) ^ 53 ≤ 2 ^ floorLog2 b := Nat.pow_le_pow_right (by norm_num) hcon
    omega
  unfold f64Binade
  split_ifs with hle
  · refine ⟨by omega, ?_⟩
    have hs : 116 - (floorLog2 a + 64 - floorLog2 b) = 52 - floorLog2 a + floorLog2 b := by
      omega
    rw [hs]
    calc b * 2 ^ 52 = b * 2 ^ floorLog2 a * 2 ^ (52 - floorLog2 a) := by
          rw [mul_assoc, ← pow_add]
          congr 2
          omega
      _ ≤ a * 2 ^ floorLog2 b * 2 ^ (52 - floorLog2 a) := Nat.mul_le_mul_right _ hle
      _ = a * 2 ^ (52 - floorLog2 a + floorLog2 b) := by
          rw [mul_assoc, ← pow_add]
          congr 2
          omega
  · refine ⟨by omega, ?_⟩
    have hs : 116 - (floorLog2 a + 64 - floorLog2 b - 1) =
        53 - floorLog2 a + floorLog2 b := by omega
    rw [hs]
    have key : b * 2 ^ 52 < 2 ^ (floorLog2 b + 1) * 2 ^ 52 :=
      (Nat.mul_lt_mul_right (pow_pos (by norm_num) 52)).2 hb3
    have key2 : (2 : Nat) ^ (floorLog2 b + 1) * 2 ^ 52 =
        2 ^ floorLog2 a * 2 ^ (53 - floorLog2 a + floorLog2 b) := by
      rw [← pow_add, ← pow_add]
      congr 1
      omega
    have key3 : (2 : Nat) ^ floorLog2 a * 2 ^ (53 - floorLog2 a + floorLog2 b) ≤
        a * 2 ^ (53 - floorLog2 a + floorLog2 b) := Nat.mul_le_mul_right _ ha2
    omega

theorem f64OfNat_small (n : Nat) (h : n < 2 ^ 53) : f64OfNat n = n := by
  unfold f64OfNat
  rcases Nat.eq_zero_or_pos n with h0 | h1
  · simp [h0]
  · rw [if_neg (by omega)]
    obtain ⟨hl, _⟩ := floorLog2_spec n h1 (by
      calc n < 2 ^ 53 := h
        _ < 2 ^ 128 := by norm_num)
    have hle : floorLog2 n ≤ 52 := by
      by_contra hcon
      push_neg at hcon
      have : (2 : Nat) ^ 53 ≤ 2 ^ floorLog2 n := Nat.pow_le_pow_right (by norm_num) hcon
      omega
    rw [if_pos hle]

theorem f64DivCeil_exact (a b : Nat) (ha : a < 2 ^ 53) (hb : 0 < b)
    (hb53 : b < 2 ^ 53) :
    f64DivCeil a b = (a + b - 1) / b := by
  rcases Nat.eq_zero_or_pos a with ha0 | ha1
  · subst ha0
    rw [f64DivCeil, if_pos rfl, Nat.zero_add, eq_comm]
    exact Nat.div_eq_of_lt (by omega)
  · obtain ⟨hs116, hsmall⟩ := f64Binade_bounds a b ha1 hb ha hb53
    unfold f64DivCeil
    rw [if_neg (by omega)]
    by_cases hge : 116 ≤ f64Binade a b
    · have hs : f64Binade a b = 116 := le_antisymm hs116 hge
      rw [if_pos hge, hs]
      have h := rhe_ceil_combined a b 0 hb ha1 ha (by
        rw [hs] at hsmall
        simpa using hsmall)
      simpa using h
    · rw [if_neg hge]
      exact rhe_ceil_combined a b (116 - f64Binade a b) hb ha1 ha hsmall

theorem ceilDiv_eq_ceil_rat (q p : Nat) (hp : 0 < p) :
    (q + p - 1) / p = ⌈(q : ℚ) / (p : ℚ)⌉₊ := by
  rcases Nat.eq_zero_or_pos q with hq | hq
  · subst hq
    have h1 : (0 + p - 1) / p = 0 := Nat.div_eq_of_lt (by omega)
    rw [h1]
    simp
  · set n := (q + p - 1) / p with hn
    have h1 : n * p ≤ q + p - 1 := by
      rw [hn]
      exact Nat.div_mul_le_self _ _
    have h2 : q + p - 1 < (n + 1) * p := by
      rw [hn]
      exact (Nat.div_lt_iff_lt_mul hp).1 (Nat.lt_succ_self _)
    have hnpos : 1 ≤ n := by
      rw [hn]
      exact (Nat.le_div_iff_mul_le hp).2 (by omega)
    have hsub : (n - 1) * p + p = n * p := by
      have h : n - 1 + 1 = n := by omega
      calc (n - 1) * p + p = (n - 1 + 1) * p := by ring
        _ = n * p := by rw [h]
    have hexp : (n + 1) * p = n * p + p := by ring
    have hq1 : q ≤ n * p := by omega
    have hq2 : (n - 1) * p < q := by omega
    rw [eq_comm, Nat.ceil_eq_iff (by omega : n ≠ 0)]
    constructor
    · rw [lt_div_iff₀ (by exact_mod_cast hp)]
      exact_mod_cast hq2
    · rw [div_le_iff₀ (by exact_mod_cast hp)]
      exact_mod_cast hq1

/-- Claim C1: when quota resolution yields a positive quota, the
steady-state logical count is the minimum of the quota and the affinity
prober's result; when it yields nothing or zero, the logical count is
the affinity prober's result. -/
theorem C1_effective_count (env : Env) :
    (∀ quota, load_cgroups env = some quota → 0 < quota →
      get_num_cpus env = min quota (logical_cpus env)) ∧
    ((load_cgroups env = none ∨ load_cgroups env = some 0) →
      get_num_cpus env = logical_cpus env) := by
  constructor
  · intro quota hl hquota
    have hq0 : ¬ quota = 0 := by omega
    by_cases hmin : 0 < min quota (logical_cpus env)
    · unfold get_num_cpus cgroups_num_cpus init_cgroups
      rw [hl]
      simp [hq0, hmin]
    · have hget : get_num_cpus env = logical_cpus env := by
        unfold get_num_cpus cgroups_num_cpus init_cgroups
        rw [hl]
        simp [hq0, hmin]
      rw [hget]
      omega
  · rintro (hl | hl) <;>
      · unfold get_num_cpus cgroups_num_cpus init_cgroups
        rw [hl]
        simp

/-- Witness for C1 at a concrete environment with quota 4 and eight
permitted CPUs. -/
theorem C1_effective_count_witness :
    load_cgroups envW = some 4 ∧ get_num_cpus envW = min 4 (logical_cpus envW) :=
  ⟨by decide, (C1_effective_count envW).1 4 (by decide) (by decide)⟩

/-- Counterexample to claim C2: at quota_us = 2^53 + 1 (parseable as a
`usize` but not representable as a double) and period_us = 1, the
`u64`-to-double conversion rounds the quota half-to-even down to 2^53,
so the code returns 2^53 while the exact real-valued ceiling is
2^53 + 1. -/
theorem C2_counterexample :
    Cgroup.quota_us filesBig cgW = some 9007199254740993 ∧
    Cgroup.period_us filesBig cgW = some 1 ∧
    Cgroup.cpu_quota filesBig cgW = some 9007199254740992 ∧
    ⌈(9007199254740993 : ℚ) / (1 : ℚ)⌉₊ = 9007199254740993 :=
  ⟨by decide, by decide, by decide, by norm_num⟩

/-- Claim C2 (amended): for every quota and positive period read from
the two quota files, both below 2^53 (the range where the double
computation is exact; CFS microsecond values are far below it),
`Cgroup::cpu_quota` returns the ceiling of their real-valued quotient,
so any quota smaller than one full period yields 1 rather than 0.  For
parseable operands at or above 2^53 the double rounding can differ
from the exact ceiling. -/
theorem C2_cpu_quota_ceiling (files : FileSys) (cg : Cgroup) (q p : Nat)
    (hq : cg.quota_us files = some q) (hp : cg.period_us files = some p)
    (hp0 : 0 < p) (hq53 : q < 2 ^ 53) (hp53 : p < 2 ^ 53) :
    cg.cpu_quota files = some ⌈(q : ℚ) / (p : ℚ)⌉₊ ∧
    (0 < q → q < p → cg.cpu_quota files = some 1) := by
  have hp0' : ¬ p = 0 := by omega
  have hmain : cg.cpu_quota files = some ((q + p - 1) / p) := by
    unfold Cgroup.cpu_quota
    rw [hq, hp]
    simp only [if_neg hp0']
    rw [f64OfNat_small q hq53, f64OfNat_small p hp53, f64DivCeil_exact q p hq53 hp0 hp53]
    unfold usizeSat
    have hle : (q + p - 1) / p ≤ q + p - 1 := Nat.div_le_self _ _
    congr 1
    omega
  constructor
  · rw [hmain, ceilDiv_eq_ceil_rat q p hp0]
  · intro h1 h2
    rw [hmain]
    have hone : (q + p - 1) / p = 1 := Nat.div_eq_of_lt_le (by omega) (by omega)
    rw [hone]

/-- Witness for C2: quota 100000 with period 30000 resolves to 4. -/
theorem C2_cpu_quota_ceiling_witness :
    Cgroup.cpu_quota filesW cgW = some 4 := by
  have h := (C2_cpu_quota_ceiling filesW cgW 100000 30000 (by decide) (by decide)
    (by decide) (by decide) (by decide)).1
  rw [h, ← ceilDiv_eq_ceil_rat 100000 30000 (by norm_num)]

/-- Claim C3: `Cgroup::translate` strips the mount root from the
subsystem path as a component-wise path prefix and joins the remainder
onto the mount point, failing exactly when the subsystem path does not
start with the root; the docker examples resolve as stated.  (A leading
"." of a rootless path is a component of its own, so "./a" does not
start with "a".) -/
theorem C3_translate_paths (mi : MountInfo) (s : Subsys) :
    (∀ rel, stripRootPre (pathComps s.base) (pathComps mi.root) = some rel →
      Cgroup.translate mi s = some ⟨pathPush (pathComps mi.mount_point) rel⟩) ∧
    (stripRootPre (pathComps s.base) (pathComps mi.root) = none →
      Cgroup.translate mi s = none) ∧
    Cgroup.translate ⟨"/docker/01abcd", "/sys/fs/cgroup/cpu"⟩ ⟨"/docker/01abcd"⟩ =
      some ⟨pathComps "/sys/fs/cgroup/cpu"⟩ ∧
    Cgroup.translate ⟨"/docker/01abcd", "/sys/fs/cgroup/cpu"⟩ ⟨"/docker/01abcd/large"⟩ =
      some ⟨pathComps "/sys/fs/cgroup/cpu/large"⟩ ∧
    Cgroup.translate ⟨"/docker/01abcd", "/sys/fs/cgroup/cpu"⟩ ⟨"/elsewhere"⟩ = none ∧
    Cgroup.translate ⟨"a", "/sys/fs/cgroup/cpu"⟩ ⟨"./a"⟩ = none := by
  refine ⟨?_, ?_, by decide, by decide, by decide, by decide⟩
  · intro rel h
    unfold Cgroup.translate
    rw [h]
  · intro h
    unfold Cgroup.translate
    rw [h]

/-- Witness for C3 at the docker example with a nested subsystem
path. -/
theorem C3_translate_paths_witness :
    stripRootPre (pathComps "/docker/01abcd/large") (pathComps "/docker/01abcd") =
      some [PComp.normal "large"] ∧
    Cgroup.translate ⟨"/docker/01abcd", "/sys/fs/cgroup/cpu"⟩ ⟨"/docker/01abcd/large"⟩ =
      some ⟨pathPush (pathComps "/sys/fs/cgroup/cpu") [PComp.normal "large"]⟩ :=
  ⟨by decide,
   (C3_translate_paths ⟨"/docker/01abcd", "/sys/fs/cgroup/cpu"⟩ ⟨"/docker/01abcd/large"⟩).1
     [PComp.normal "large"] (by decide)⟩

/-- Counterexample to claim C4: on a file with two `cpu cores` lines
and no `physical id` line, the scanner records the entry `0 -> 2` and
returns the count 2, while the claimed rule (record only when both a
physical id and a core count have been seen since the last flush) would
record nothing. -/
theorem C4_counterexample :
    (scanLines ⟨[], 0, 0, 0⟩ ["cpu cores : 4", "cpu cores : 2"]).map = [(0, 2)] ∧
    physCountFromLines ["cpu cores : 4", "cpu cores : 2"] = 2 ∧
    specPhysCountFromLines ["cpu cores : 4", "cpu cores : 2"] = 0 :=
  ⟨by decide, by decide, by decide⟩

/-- Claim C4 (amended): the recording discipline of the claim holds
provided the recognized topology lines parse and alternate in windows
of one `physical id` and one `cpu cores` line; on such files the code's
count equals the claimed both-seen-then-flush count.  (In general the
code counts occurrences of either key and flushes at two, with the
stale other half.) -/
theorem C4_scan_pairing (lines : List String) (h : pairedOk none lines = true) :
    physCountFromLines lines = specPhysCountFromLines lines := by
  unfold physCountFromLines specPhysCountFromLines
  rw [scan_agrees lines none ⟨[], 0, 0, 0⟩ ⟨[], none, none⟩ h ⟨rfl, rfl, rfl, rfl⟩]

/-- Witness for the amended C4 on a well-paired two-package file. -/
theorem C4_scan_pairing_witness :
    pairedOk none ["physical id : 0", "cpu cores : 4", "physical id : 1", "cpu cores : 2"] =
      true ∧
    physCountFromLines
        ["physical id : 0", "cpu cores : 4", "physical id : 1", "cpu cores : 2"] =
      specPhysCountFromLines
        ["physical id : 0", "cpu cores : 4", "physical id : 1", "cpu cores : 2"] :=
  ⟨by decide,
   C4_scan_pairing ["physical id : 0", "cpu cores : 4", "physical id : 1", "cpu cores : 2"]
     (by decide)⟩

/-- Counterexample to claim C5: when the affinity syscall succeeds with
an empty mask, the bit-counting branch returns 0 with no clamping, so
both public operations return 0. -/
theorem C5_counterexample :
    logical_cpus envC5 = 0 ∧ get_num_cpus envC5 = 0 ∧ get_num_physical_cpus envC5 = 0 :=
  ⟨by decide, by decide, by decide⟩

/-- Claim C5 (amended): both public operations return at least 1 in
every environment whose successful affinity reads report at least one
permitted CPU (the kernel guarantee); the online-CPU fallback is
clamped to 1 unconditionally. -/
theorem C5_positive_counts (env : Env)
    (h : ∀ mask, env.affinity = some mask → 0 < countSetBits mask) :
    1 ≤ logical_cpus env ∧ 1 ≤ get_num_cpus env ∧ 1 ≤ get_num_physical_cpus env := by
  have hlog : 1 ≤ logical_cpus env := by
    unfold logical_cpus
    cases haff : env.affinity with
    | some mask => exact h mask haff
    | none =>
      by_cases hn : env.nprocs_onln < 1
      · simp [hn]
      · simp [hn]
        omega
  have hget : 1 ≤ get_num_cpus env := by
    unfold get_num_cpus cgroups_num_cpus
    by_cases hc : init_cgroups env > 0
    · simp [hc]
      omega
    · simp [hc]
      exact hlog
  refine ⟨hlog, hget, ?_⟩
  unfold get_num_physical_cpus
  cases hci : env.cpuinfo with
  | none => exact hget
  | some lines =>
    by_cases hz : physCountFromLines lines = 0
    · simp [hz]
      exact hget
    · simp [hz]
      omega

/-- Witness for the amended C5 in an environment where every probe
fails. -/
theorem C5_positive_counts_witness :
    1 ≤ logical_cpus envC5W ∧ 1 ≤ get_num_cpus envC5W ∧ 1 ≤ get_num_physical_cpus envC5W :=
  C5_positive_counts envC5W (fun _ h => nomatch h)

/-- Claim C6: a zero period makes `Cgroup::cpu_quota` return `None`
before any division, for every quota file content. -/
theorem C6_zero_period (files : FileSys) (cg : Cgroup)
    (h : cg.period_us files = some 0) :
    cg.cpu_quota files = none := by
  unfold Cgroup.cpu_quota
  cases hq : cg.quota_us files with
  | none => rfl
  | some q =>
    rw [h]
    simp

/-- Witness for C6 with a period file holding 0. -/
theorem C6_zero_period_witness :
    Cgroup.period_us filesC6 cgW = some 0 ∧ Cgroup.cpu_quota filesC6 cgW = none :=
  ⟨by decide, C6_zero_period filesC6 cgW (by decide)⟩

/-- Counterexample to claim C7: the code reads `cpu.cfs_quota_us`
through the same unsigned parse as the period, so a file holding -1
fails the parse (while the claimed signed read succeeds), and
resolution yields `None` before any quota value can reach the
`quota > 0` gate. -/
theorem C7_counterexample :
    Cgroup.quota_us filesC7 cgW = none ∧
    parseSigned (rsTrim "-1\n") = some (-1) ∧
    Cgroup.cpu_quota filesC7 cgW = none ∧
    load_cgroups envC7 = none :=
  ⟨by decide, by decide, by decide, by decide⟩

/-- Claim C7 (amended): both quota files are read as unsigned integers;
a `cpu.cfs_quota_us` holding -1 fails the parse, so `cpu_quota` returns
`None`, quota resolution fails, and `get_num_cpus()` falls back to the
affinity prober's logical count without involving the `quota > 0`
gate. -/
theorem C7_unsigned_quota :
    (∀ (files : FileSys) (cg : Cgroup) (s : String),
      files (cg.base ++ [PComp.normal "cpu.cfs_quota_us"]) = some s →
      rsTrim s = "-1" →
      cg.cpu_quota files = none) ∧
    (∀ env, load_cgroups env = none → get_num_cpus env = logical_cpus env) := by
  constructor
  · intro files cg s hf ht
    have hq : cg.quota_us files = none := by
      unfold Cgroup.quota_us Cgroup.param
      simp only [hf]
      rw [ht]
      decide
    unfold Cgroup.cpu_quota
    rw [hq]
  · intro env h
    unfold get_num_cpus cgroups_num_cpus init_cgroups
    rw [h]
    simp

/-- Witness for the amended C7: with -1 in the quota file the pipeline
fails and the steady-state count is the logical count. -/
theorem C7_unsigned_quota_witness :
    Cgroup.cpu_quota filesC7 cgW = none ∧ get_num_cpus envC7 = logical_cpus envC7 :=
  ⟨C7_unsigned_quota.1 filesC7 cgW "-1\n" (by decide) (by decide),
   C7_unsigned_quota.2 envC7 (by decide)⟩

/-- Claim C8: the cache is written by the first call only; a second
call in an environment whose cgroup files changed (same affinity
outcome) returns the identical value and leaves the cache state
untouched. -/
theorem C8_cache_frozen (e1 e2 : Env)
    (hlog : logical_cpus e1 = logical_cpus e2) :
    (call_get_num_cpus e2 (call_get_num_cpus e1 initState).2).1 =
      (call_get_num_cpus e1 initState).1 ∧
    (call_get_num_cpus e2 (call_get_num_cpus e1 initState).2).2 =
      (call_get_num_cpus e1 initState).2 := by
  constructor
  · simp only [call_get_num_cpus, callStep, initState]
    by_cases h : init_cgroups e1 > 0
    · simp [h]
    · simp [h, hlog]
  · simp [call_get_num_cpus, callStep, initState]

/-- Witness for C8: the quota file changes from 100000 to 200000
between the two calls, yet the second call repeats the first value and
state. -/
theorem C8_cache_frozen_witness :
    (call_get_num_cpus envW2 (call_get_num_cpus envW initState).2).1 =
      (call_get_num_cpus envW initState).1 ∧
    (call_get_num_cpus envW2 (call_get_num_cpus envW initState).2).2 =
      (call_get_num_cpus envW initState).2 :=
  C8_cache_frozen envW envW2 (by decide)

/-- Claim C9: when the topology file cannot be opened, or its parsed
core sum is zero, `get_num_physical_cpus` returns exactly
`get_num_cpus`. -/
theorem C9_physical_fallback (env : Env) :
    (env.cpuinfo = none → get_num_physical_cpus env = get_num_cpus env) ∧
    (∀ lines, env.cpuinfo = some lines → physCountFromLines lines = 0 →
      get_num_physical_cpus env = get_num_cpus env) := by
  constructor
  · intro h
    unfold get_num_physical_cpus
    rw [h]
  · intro lines h hz
    unfold get_num_physical_cpus
    rw [h]
    simp [hz]

/-- Witness for C9 in an environment with no topology file. -/
theorem C9_physical_fallback_witness :
    get_num_physical_cpus envC5W = get_num_cpus envC5W :=
  (C9_physical_fallback envC5W).1 rfl

/-- Claim C10: a recognized topology line whose value fails to parse
stops the scan there; the core counts recorded before the failure are
summed, and a nonzero partial sum is returned as the physical count
instead of the logical fallback. -/
theorem C10_scan_break (env : Env) (pre : List String) (bad : String)
    (rest : List String)
    (hcpu : env.cpuinfo = some (pre ++ bad :: rest)) (hbad : classify bad = TLine.bad) :
    get_num_physical_cpus env =
      if physCountFromLines pre = 0 then get_num_cpus env
      else physCountFromLines pre := by
  unfold get_num_physical_cpus physCountFromLines
  rw [hcpu]
  simp only [scanLines_stop bad hbad]

/-- Witness for C10: the scan stops at the unparsable third line and
returns the partial sum 4, ignoring the later `cpu cores : 8` line. -/
theorem C10_scan_break_witness :
    classify "physical id : x" = TLine.bad ∧ get_num_physical_cpus envC10 = 4 := by
  refine ⟨by decide, ?_⟩
  have h := C10_scan_break envC10 ["physical id : 0", "cpu cores : 4"] "physical id : x"
    ["cpu cores : 8"] rfl (by decide)
  rw [h]
  decide

end NumCpus
